import Mathlib

/-!
Verification of the wallapop-rss service core: the request-signing function
(`signature.py`) and the TTL cache, signed HTTP GET, search/deduplication loop
and feed assembly (`main.py`), shallowly embedded as executable Lean functions.
Bytes are `Nat` values below 256, 32-bit words are `Nat` values reduced mod
2^32, and timestamps are `Int` (Python integers).
-/

namespace WallapopRss

/-! ## SHA-256 (FIPS 180-4) over byte lists, words as `Nat` mod 2^32 -/

def M32 : Nat := 4294967296

/-- Right rotation of a 32-bit word (input assumed < 2^32). -/
def rotr32 (n x : Nat) : Nat := (x >>> n) ||| ((x <<< (32 - n)) % M32)

def ch32 (x y z : Nat) : Nat := Nat.xor (Nat.land x y) (Nat.land (Nat.xor x 4294967295) z)

def maj32 (x y z : Nat) : Nat := Nat.xor (Nat.land x y) (Nat.xor (Nat.land x z) (Nat.land y z))

def bsig0 (x : Nat) : Nat := Nat.xor (rotr32 2 x) (Nat.xor (rotr32 13 x) (rotr32 22 x))

def bsig1 (x : Nat) : Nat := Nat.xor (rotr32 6 x) (Nat.xor (rotr32 11 x) (rotr32 25 x))

def ssig0 (x : Nat) : Nat := Nat.xor (rotr32 7 x) (Nat.xor (rotr32 18 x) (x >>> 3))

def ssig1 (x : Nat) : Nat := Nat.xor (rotr32 17 x) (Nat.xor (rotr32 19 x) (x >>> 10))

/-- The 64 SHA-256 round constants of FIPS 180-4, in decimal. -/
def K256 : List Nat :=
  [1116352408, 1899447441, 3049323471, 3921009573,
   961987163, 1508970993, 2453635748, 2870763221,
   3624381080, 310598401, 607225278, 1426881987,
   1925078388, 2162078206, 2614888103, 3248222580,
   3835390401, 4022224774, 264347078, 604807628,
   770255983, 1249150122, 1555081692, 1996064986,
   2554220882, 2821834349, 2952996808, 3210313671,
   3336571891, 3584528711, 113926993, 338241895,
   666307205, 773529912, 1294757372, 1396182291,
   1695183700, 1986661051, 2177026350, 2456956037,
   2730485921, 2820302411, 3259730800, 3345764771,
   3516065817, 3600352804, 4094571909, 275423344,
   430227734, 506948616, 659060556, 883997877,
   958139571, 1322822218, 1537002063, 1747873779,
   1955562222, 2024104815, 2227730452, 2361852424,
   2428436474, 2756734187, 3204031479, 3329325298]

/-- Pack big-endian bytes into 32-bit words, four at a time. -/
def bytesToWords : List Nat → List Nat
  | a :: b :: c :: d :: rest => (((a * 256 + b) * 256 + c) * 256 + d) :: bytesToWords rest
  | _ => []

/-- Split a word list into blocks of 16 words; the fuel bounds the recursion. -/
def chunk16 : Nat → List Nat → List (List Nat)
  | 0, _ => []
  | _ + 1, [] => []
  | n + 1, l => l.take 16 :: chunk16 n (l.drop 16)

/-- Next message-schedule word from the sliding window of the last 16 words. -/
def schedNext : List Nat → Nat
  | w0 :: w1 :: _ :: _ :: _ :: _ :: _ :: _ :: _ :: w9 :: _ :: _ :: _ :: _ :: w14 :: _ =>
      (ssig1 w14 + w9 + ssig0 w1 + w0) % M32
  | _ => 0

/-- Extend a 16-word block to the full 64-word message schedule. -/
def extendWords : Nat → List Nat → List Nat
  | 0, w => w
  | n + 1, w => extendWords n (w ++ [schedNext (w.drop (w.length - 16))])

structure Hash8 where
  a : Nat
  b : Nat
  c : Nat
  d : Nat
  e : Nat
  f : Nat
  g : Nat
  h : Nat

/-- One SHA-256 compression round, fed a round constant paired with a schedule word. -/
def shaRound (st : Hash8) (kw : Nat × Nat) : Hash8 :=
  let t1 := (st.h + bsig1 st.e + ch32 st.e st.f st.g + kw.1 + kw.2) % M32
  let t2 := (bsig0 st.a + maj32 st.a st.b st.c) % M32
  { a := (t1 + t2) % M32, b := st.a, c := st.b, d := st.c,
    e := (st.d + t1) % M32, f := st.e, g := st.f, h := st.g }

/-- Compress one 16-word block into the running hash state. -/
def compressBlock (st : Hash8) (block : List Nat) : Hash8 :=
  let w := extendWords 48 block
  let r := (K256.zip w).foldl shaRound st
  { a := (st.a + r.a) % M32, b := (st.b + r.b) % M32, c := (st.c + r.c) % M32,
    d := (st.d + r.d) % M32, e := (st.e + r.e) % M32, f := (st.f + r.f) % M32,
    g := (st.g + r.g) % M32, h := (st.h + r.h) % M32 }

/-- The eight SHA-256 initial hash words, in decimal. -/
def H256 : Hash8 :=
  { a := 1779033703, b := 3144134277, c := 1013904242, d := 2773480762,
    e := 1359893119, f := 2600822924, g := 528734635, h := 1541459225 }

/-- Big-endian 8-byte encoding of a length in bits. -/
def be8 (n : Nat) : List Nat :=
  [(n >>> 56) % 256, (n >>> 48) % 256, (n >>> 40) % 256, (n >>> 32) % 256,
   (n >>> 24) % 256, (n >>> 16) % 256, (n >>> 8) % 256, n % 256]

def wordBytes (w : Nat) : List Nat :=
  [(w >>> 24) % 256, (w >>> 16) % 256, (w >>> 8) % 256, w % 256]

/-- SHA-256 digest (32 bytes) of a byte list. -/
def sha256 (msg : List Nat) : List Nat :=
  let l := msg.length
  let zeros := (119 - l % 64) % 64
  let padded := msg ++ 128 :: (List.replicate zeros 0 ++ be8 (l * 8))
  let blocks := chunk16 padded.length (bytesToWords padded)
  let st := blocks.foldl compressBlock H256
  wordBytes st.a ++ wordBytes st.b ++ wordBytes st.c ++ wordBytes st.d ++
    wordBytes st.e ++ wordBytes st.f ++ wordBytes st.g ++ wordBytes st.h

/-! ## HMAC-SHA256 (FIPS 198-1) -/

def hmac_sha256 (key msg : List Nat) : List Nat :=
  let k0 := if 64 < key.length then sha256 key else key
  let kp := k0 ++ List.replicate (64 - k0.length) 0
  let inner := sha256 (kp.map (fun b => Nat.xor b 54) ++ msg)
  sha256 (kp.map (fun b => Nat.xor b 92) ++ inner)

/-! ## Standard base64 encoding -/

def b64table : List Char :=
  "ABCDEFGHIJKLMNOPQRSTUVWXYZabcdefghijklmnopqrstuvwxyz0123456789+/".toList

def b64char (n : Nat) : Char := b64table.getD n 'A'

def b64encode : List Nat → List Char
  | a :: b :: c :: rest =>
      let n := (a * 256 + b) * 256 + c
      b64char (n >>> 18) :: b64char ((n >>> 12) % 64) :: b64char ((n >>> 6) % 64) ::
        b64char (n % 64) :: b64encode rest
  | [a, b] =>
      let n := (a * 256 + b) * 4
      [b64char (n >>> 12), b64char ((n >>> 6) % 64), b64char (n % 64), '=']
  | [a] =>
      let n := a * 16
      [b64char (n >>> 6), b64char (n % 64), '=', '=']
  | [] => []

/-! ## UTF-8 encoding of strings (Python `str.encode` on text) -/

def utf8Char (c : Char) : List Nat :=
  let n := c.toNat
  if n < 128 then [n]
  else if n < 2048 then [192 + n / 64, 128 + n % 64]
  else if n < 65536 then [224 + n / 4096, 128 + (n / 64) % 64, 128 + n % 64]
  else [240 + n / 262144, 128 + (n / 4096) % 64, 128 + (n / 64) % 64, 128 + n % 64]

def utf8Encode (s : List Char) : List Nat := (s.map utf8Char).flatten

/-! ## Embedding of signature.py -/

/-- The hardcoded secret key of signature.py. -/
def KEY : String :=
  "Tm93IHRoYXQgeW91J3ZlIGZvdW5kIHRoaXMsIGFyZSB5b3UgcmVhZHkgdG8gam9pbiB1cz8gam9ic0B3YWxsYXBvcC5jb20=="

/-- ASCII uppercasing of one character, the behavior of Python str.upper on
the ASCII method strings this program passes. -/
def pyUpperChar (c : Char) : Char :=
  if 97 <= c.toNat && c.toNat <= 122 then Char.ofNat (c.toNat - 32) else c

def pyUpper (s : List Char) : List Char := s.map pyUpperChar

def startsWithL : List Char → List Char → Bool
  | [], _ => true
  | _ :: _, [] => false
  | p :: ps, c :: cs => p == c && startsWithL ps cs

/-- Delete every occurrence of `pat` from the character list, scanning left to
right: Python s.replace(pat, ''). The fuel bounds the recursion; the source
only calls this with the fixed nonempty pattern below. -/
def replaceAllAux : Nat → List Char → List Char → List Char
  | 0, _, _ => []
  | _ + 1, _, [] => []
  | n + 1, pat, c :: cs =>
      if startsWithL pat (c :: cs) then replaceAllAux n pat ((c :: cs).drop pat.length)
      else c :: replaceAllAux n pat cs

def apiHost : List Char := "https://api.wallapop.com".toList

/-- The url.replace step of get_signature: strip every occurrence of the
api.wallapop.com scheme-and-host prefix string. -/
def stripApiHost (s : List Char) : List Char := replaceAllAux s.length apiHost s

/-- The message that get_signature feeds the HMAC built, character by character,
as in the source f-string. -/
def signed_message (url method timestamp : List Char) : List Char :=
  pyUpper method ++ "|".toList ++ stripApiHost url ++ "|".toList ++
    timestamp ++ "|".toList

/-- Embedding of signature.py get_signature. -/
def get_signature (url method timestamp : String) : String :=
  let msg := signed_message url.toList method.toList timestamp.toList
  let sig := hmac_sha256 (utf8Encode KEY.toList) (utf8Encode msg)
  String.mk (b64encode sig)

/-- Embedding of signature.py get_timestamp, parameterized by the current
int(time.time()) reading: str(int(time.time()) * 1000). -/
def get_timestamp (now : Int) : String := toString (now * 1000)

/-! ## Embedding of main.py -/

def USER_AGENT : String :=
  "Mozilla/5.0 (X11; Linux x86_64; rv:67.0) Gecko/20100101 Firefox/67.0"

def URL : String := "https://es.wallapop.com"

def URLAPIV3 : String := "https://api.wallapop.com/api/v3"

/-- The Cache class of main.py. The dict is an association list in insertion
order (key, value, inserted-at epoch seconds); the updater is the pluggable
loader, returning `Except` where the Python loader may raise. -/
structure Cache (K V E : Type) where
  updater : K → Except E V
  expiration : Int
  dict : List (K × V × Int)

/-- Cache.clean: drop every entry whose timestamp is below
int(time.time()) - expiration, scanning the whole dict. -/
def Cache.clean (c : Cache K V E) (now : Int) : Cache K V E :=
  { c with dict := c.dict.filter (fun e => ! decide (e.2.2 < now - c.expiration)) }

/-- Python dict lookup on the association list (keys are unique in a dict;
first match). -/
def lookupEntry [DecidableEq K] : List (K × V × Int) → K → Option (V × Int)
  | [], _ => none
  | e :: rest, k => if e.1 = k then some e.2 else lookupEntry rest k

/-- Cache.get: sweep first, then return the live entry if present, else run
the updater, store its result with the time read after the updater returned,
and return it. `now1` is the time read inside clean, `now2` the one read
after the updater call. The returned Bool records whether the updater was
invoked during this call; a raising updater propagates as `Except.error`
with the swept dict left as is. -/
def Cache.get [DecidableEq K] (c : Cache K V E) (now1 now2 : Int) (k : K) :
    Except E V × Cache K V E × Bool :=
  let c1 := c.clean now1
  match lookupEntry c1.dict k with
  | some vt => (Except.ok vt.1, c1, false)
  | none =>
      match c1.updater k with
      | Except.error err => (Except.error err, c1, true)
      | Except.ok v => (Except.ok v, { c1 with dict := c1.dict ++ [(k, v, now2)] }, true)

/-- An outbound signed HTTP GET as built by main.py get: the url, the query
params, and the headers dict. -/
structure HttpRequest where
  url : String
  params : List (String × String)
  headers : List (String × String)

/-- Embedding of main.py get, parameterized by the int(time.time()) reading
taken at send time. -/
def get (now : Int) (url : String) (params : List (String × String)) : HttpRequest :=
  let timestamp := get_timestamp now
  let signature := get_signature url "get" timestamp
  { url := url, params := params,
    headers := [("User-Agent", USER_AGENT), ("Timestamp", timestamp),
                ("X-Signature", signature)] }

/-- Embedding of main.py get_location: the request it issues. -/
def get_location (now : Int) (place_id : String) : HttpRequest :=
  get now (URL ++ "/maps/here/place") [("placeId", place_id)]

/-- The geocoded location fields search uses, already stringified as by
Python str() on the JSON values. -/
structure Location where
  latitude : String
  longitude : String
deriving DecidableEq

/-- The parameter tuple of one main.py search call (the varying query
params; filters_source, order_by and language are constants in the source). -/
structure SearchCall where
  distance : String
  keywords : List String
  min_sale_price : Int
  max_sale_price : Int
  latitude : String
  longitude : String
deriving DecidableEq

/-- The search-call parameters main.py search builds from its arguments:
distance is str(location_radius*1000) and the whole keyword list is passed. -/
def search_call (keywords : List String) (location : Location)
    (location_radius min_price max_price : Int) : SearchCall :=
  { distance := toString (location_radius * 1000), keywords := keywords,
    min_sale_price := min_price, max_sale_price := max_price,
    latitude := location.latitude, longitude := location.longitude }

/-- One upstream search result as far as rss_view reads it: the fields of
item the loop accesses. images is the list of medium image URLs. -/
structure Item where
  id : String
  title : String
  price : String
  currency : String
  description : String
  images : List String
  web_slug : String
  micro_name : String
deriving DecidableEq

/-- A produced RSS item; pubDate is the datetime the cache returned,
modelled as epoch seconds. -/
structure RSSItem where
  title : String
  link : String
  description : String
  author : String
  guid : String
  pubDate : Int
deriving DecidableEq

/-- The RSSItem rss_view appends for a surviving item, given the date the
cache resolved for it. -/
def mkRSSItem (date : Int) (item : Item) : RSSItem :=
  { title := item.title ++ " - " ++ item.price ++ " " ++ item.currency,
    link := "https://es.wallapop.com/item/" ++ item.web_slug,
    description := item.images.foldl
      (fun d img => d ++ "<img src=\"" ++ img ++ "\"><br/>")
      (item.description ++ "<br/>"),
    author := item.micro_name,
    guid := item.id,
    pubDate := date }

/-- The mutable state of the rss_view loop: the search calls issued so far,
the item_ids seen-set (in insertion order), the rss_items accumulator, and
the item_date_cache state. -/
structure LoopState (E : Type) where
  calls : List SearchCall
  item_ids : List String
  rss_items : List RSSItem
  cache : Cache String Int E

/-- The body of the inner for-loop of rss_view for one search result:
skip an already-seen id, otherwise resolve the date through the cache
(propagating a raising loader) and append the built RSS item. -/
def processItem (now : Int) (st : LoopState E) (item : Item) :
    Except E (LoopState E) :=
  if item.id ∈ st.item_ids then Except.ok st
  else
    match st.cache.get now now item.id with
    | (Except.error err, _, _) => Except.error err
    | (Except.ok date, c2, _) =>
        Except.ok { st with
          item_ids := st.item_ids ++ [item.id],
          rss_items := st.rss_items ++ [mkRSSItem date item],
          cache := c2 }

/-- The inner for-loop of rss_view over one search result list. -/
def itemLoop (now : Int) : List Item → LoopState E → Except E (LoopState E)
  | [], st => Except.ok st
  | item :: rest, st =>
      match processItem now st item with
      | Except.error err => Except.error err
      | Except.ok st2 => itemLoop now rest st2

/-- The outer for-loop of rss_view over query keywords: each iteration issues
search with the whole keyword list (the loop variable is unused, as in the
source) and folds the returned search_objects through processItem. -/
def keywordLoop (now : Int) (searchFn : SearchCall → List Item)
    (keywords : List String) (location : Location)
    (location_radius min_price max_price : Int) :
    List String → LoopState E → Except E (LoopState E)
  | [], st => Except.ok st
  | _keyword :: rest, st =>
      let c := search_call keywords location location_radius min_price max_price
      let result := searchFn c
      match itemLoop now result { st with calls := st.calls ++ [c] } with
      | Except.error err => Except.error err
      | Except.ok st2 =>
          keywordLoop now searchFn keywords location location_radius min_price
            max_price rest st2

/-- The produced feed, restricted to the non-constant fields the claims are
about (the RSS2 title/link/description/language strings are constants or
pure formatting in the source). -/
structure Feed where
  lastBuildDate : Int
  items : List RSSItem
deriving DecidableEq

/-- The two-assignment pattern computing lastBuildDate in the source:
datetime.now() overridden by rss_items[0].pubDate when the list is
nonempty. -/
def firstPubDate (items : List RSSItem) (nowBuild : Int) : Int :=
  match items with
  | [] => nowBuild
  | i :: _ => i.pubDate

/-- Embedding of the rss_view route handler. `locationFn` stands for the
get_location call result, `searchFn` for the upstream search response as a
function of the issued call parameters, `cache0` for the item_date_cache
state at entry; `now` is the epoch-second reading used for cache calls
during this request and `nowBuild` the datetime.now() reading. Returns the
feed together with the final cache state and the list of search calls
issued. -/
def rss_view (now nowBuild : Int) (locationFn : String → Location)
    (searchFn : SearchCall → List Item) (cache0 : Cache String Int E)
    (keywords : List String) (location_name : String)
    (location_radius min_price max_price : Int) :
    Except E (Feed × Cache String Int E × List SearchCall) :=
  let location := locationFn location_name
  match keywordLoop now searchFn keywords location location_radius min_price
      max_price keywords
      { calls := [], item_ids := [], rss_items := [], cache := cache0 } with
  | Except.error err => Except.error err
  | Except.ok st =>
      Except.ok ({ lastBuildDate := firstPubDate st.rss_items nowBuild,
                   items := st.rss_items }, st.cache, st.calls)

/-! ## Cache lemmas -/

@[simp] theorem Cache.clean_updater {K V E : Type} (c : Cache K V E) (now : Int) :
    (c.clean now).updater = c.updater := rfl

@[simp] theorem Cache.clean_expiration {K V E : Type} (c : Cache K V E) (now : Int) :
    (c.clean now).expiration = c.expiration := rfl

theorem Cache.clean_dict {K V E : Type} (c : Cache K V E) (now : Int) :
    (c.clean now).dict =
      c.dict.filter (fun e => ! decide (e.2.2 < now - c.expiration)) := rfl

theorem lookupEntry_filter_none {K V : Type} [DecidableEq K]
    (l : List (K × V × Int)) (k : K) (p : K × V × Int → Bool)
    (h : lookupEntry l k = none) : lookupEntry (l.filter p) k = none := by
  induction l with
  | nil => rfl
  | cons e rest ih =>
      by_cases hk : e.1 = k
      · simp [lookupEntry, hk] at h
      · simp only [lookupEntry, if_neg hk] at h
        rw [List.filter_cons]
        cases hp : p e
        · simpa using ih h
        · simpa [lookupEntry, if_neg hk] using ih h

theorem lookupEntry_append_none {K V : Type} [DecidableEq K]
    (l1 l2 : List (K × V × Int)) (k : K) (h : lookupEntry l1 k = none) :
    lookupEntry (l1 ++ l2) k = lookupEntry l2 k := by
  induction l1 with
  | nil => rfl
  | cons e rest ih =>
      by_cases hk : e.1 = k
      · simp [lookupEntry, hk] at h
      · simp only [lookupEntry, if_neg hk] at h
        simpa [lookupEntry, if_neg hk] using ih h

theorem lookupEntry_mem {K V : Type} [DecidableEq K]
    (l : List (K × V × Int)) (k : K) (vt : V × Int)
    (h : lookupEntry l k = some vt) : (k, vt) ∈ l := by
  induction l with
  | nil => simp [lookupEntry] at h
  | cons e rest ih =>
      by_cases hk : e.1 = k
      · simp only [lookupEntry, if_pos hk] at h
        obtain ⟨a, b⟩ := e
        obtain rfl := hk
        obtain rfl : b = vt := by simpa using h
        exact List.mem_cons_self _ _
      · simp only [lookupEntry, if_neg hk] at h
        exact List.mem_cons_of_mem _ (ih h)

/-- C5: the expiration sweep at the start of every get removes exactly the
entries whose own insertion timestamp is older than now - expiration
(entry-local, hence keys expire independently); a get that hits a live entry
leaves the swept dict unchanged (no timestamp refresh); and every get leaves
only entries live at the sweep time. -/
theorem cache_sweep_exact {K V E : Type} [DecidableEq K] (c : Cache K V E) :
    (∀ (now : Int) (e : K × V × Int),
        e ∈ (c.clean now).dict ↔ e ∈ c.dict ∧ ¬(e.2.2 < now - c.expiration)) ∧
    (∀ (now1 now2 : Int) (k : K) (vt : V × Int),
        lookupEntry (c.clean now1).dict k = some vt →
        (c.get now1 now2 k).2.1.dict = (c.clean now1).dict) ∧
    (∀ (now1 now2 : Int) (k : K), 0 ≤ c.expiration → now1 ≤ now2 →
        ∀ e ∈ (c.get now1 now2 k).2.1.dict, ¬(e.2.2 < now1 - c.expiration)) := by
  refine ⟨?_, ?_, ?_⟩
  · intro now e
    simp [Cache.clean, List.mem_filter]
  · intro now1 now2 k vt h
    simp [Cache.get, h]
  · intro now1 now2 k hexp hle e he
    have hclean : ∀ x ∈ (c.clean now1).dict, ¬(x.2.2 < now1 - c.expiration) := by
      intro x hx
      exact ((by simpa [Cache.clean, List.mem_filter] using hx :
        x ∈ c.dict ∧ ¬(x.2.2 < now1 - c.expiration))).2
    rcases hl : lookupEntry (c.clean now1).dict k with _ | vt2
    · rcases hu : c.updater k with err | v
      · rw [show (c.get now1 now2 k).2.1.dict = (c.clean now1).dict by
          simp [Cache.get, hl, hu]] at he
        exact hclean e he
      · rw [show (c.get now1 now2 k).2.1.dict =
            (c.clean now1).dict ++ [(k, v, now2)] by simp [Cache.get, hl, hu]] at he
        rcases List.mem_append.mp he with h1 | h2
        · exact hclean e h1
        · obtain rfl : e = (k, v, now2) := by simpa using h2
          simp only
          omega
    · rw [show (c.get now1 now2 k).2.1.dict = (c.clean now1).dict by
        simp [Cache.get, hl]] at he
      exact hclean e he

/-- Concrete cache used to witness the sweep theorem: one live entry. -/
def cacheLive : Cache Nat Nat String :=
  { updater := fun _ => Except.ok 7, expiration := 10, dict := [(1, 5, 0)] }

theorem cache_sweep_exact_witness :
    ((1, 5, (0 : Int)) ∈ (cacheLive.clean 5).dict ↔
      (1, 5, (0 : Int)) ∈ cacheLive.dict ∧ ¬((0 : Int) < 5 - cacheLive.expiration)) ∧
    (cacheLive.get 5 5 1).2.1.dict = (cacheLive.clean 5).dict ∧
    (∀ e ∈ (cacheLive.get 5 6 1).2.1.dict, ¬(e.2.2 < 5 - cacheLive.expiration)) := by
  refine ⟨(cache_sweep_exact cacheLive).1 5 (1, 5, 0), ?_, ?_⟩
  · exact (cache_sweep_exact cacheLive).2.1 5 5 1 (5, 0) (by decide)
  · exact (cache_sweep_exact cacheLive).2.2 5 6 1 (by decide) (by decide)

/-- C4: on a miss the loader runs (flag true, at most one invocation per call
by construction), its result is stored with the post-load timestamp and
returned; a second get strictly less than expiration seconds later returns
the stored value without invoking the loader; a get more than expiration
seconds after insertion invokes the loader again. -/
theorem cache_ttl_behavior {K V E : Type} [DecidableEq K] (c : Cache K V E)
    (k : K) (v : V) (now1 now2 : Int)
    (hmiss : lookupEntry (c.clean now1).dict k = none)
    (hok : c.updater k = Except.ok v) :
    ((c.get now1 now2 k).1 = Except.ok v ∧ (c.get now1 now2 k).2.2 = true ∧
      (c.get now1 now2 k).2.1.dict = (c.clean now1).dict ++ [(k, v, now2)]) ∧
    (∀ t2 t2b : Int, t2 - now2 < c.expiration →
      (((c.get now1 now2 k).2.1).get t2 t2b k).1 = Except.ok v ∧
      (((c.get now1 now2 k).2.1).get t2 t2b k).2.2 = false) ∧
    (∀ t3 t3b : Int, c.expiration < t3 - now2 →
      (((c.get now1 now2 k).2.1).get t3 t3b k).2.2 = true) := by
  have hdict : (c.get now1 now2 k).2.1.dict = (c.clean now1).dict ++ [(k, v, now2)] := by
    simp [Cache.get, hmiss, hok]
  have hup : (c.get now1 now2 k).2.1.updater = c.updater := by
    simp [Cache.get, hmiss, hok]
  have hexp : (c.get now1 now2 k).2.1.expiration = c.expiration := by
    simp [Cache.get, hmiss, hok]
  have key : ∀ c2 : Cache K V E,
      c2.dict = (c.clean now1).dict ++ [(k, v, now2)] →
      c2.expiration = c.expiration →
      (∀ t2 t2b : Int, t2 - now2 < c.expiration →
        (c2.get t2 t2b k).1 = Except.ok v ∧ (c2.get t2 t2b k).2.2 = false) ∧
      (∀ t3 t3b : Int, c.expiration < t3 - now2 →
        (c2.get t3 t3b k).2.2 = true) := by
    intro c2 hd he
    constructor
    · intro t2 t2b ht
      have hkeep : (! decide ((now2 : Int) < t2 - c.expiration)) = true := by
        simp only [Bool.not_eq_true', decide_eq_false_iff_not]
        omega
      have hlook : lookupEntry (c2.clean t2).dict k = some (v, now2) := by
        rw [Cache.clean_dict, hd, he, List.filter_append]
        rw [lookupEntry_append_none _ _ _ (lookupEntry_filter_none _ _ _ hmiss)]
        simp [lookupEntry, hkeep]
      exact ⟨by simp [Cache.get, hlook], by simp [Cache.get, hlook]⟩
    · intro t3 t3b ht
      have hdrop : (! decide ((now2 : Int) < t3 - c.expiration)) = false := by
        simp only [Bool.not_eq_false', decide_eq_true_eq]
        omega
      have hlook : lookupEntry (c2.clean t3).dict k = none := by
        rw [Cache.clean_dict, hd, he, List.filter_append]
        rw [lookupEntry_append_none _ _ _ (lookupEntry_filter_none _ _ _ hmiss)]
        simp [lookupEntry, hdrop]
      rcases hu : c2.updater k with err | v2
      · simp [Cache.get, hlook, hu]
      · simp [Cache.get, hlook, hu]
  exact ⟨⟨by simp [Cache.get, hmiss, hok], by simp [Cache.get, hmiss, hok], hdict⟩,
    (key _ hdict hexp).1, (key _ hdict hexp).2⟩

/-- Concrete cache used to witness the TTL theorem: empty dict, total loader. -/
def cacheEmpty : Cache Nat Nat String :=
  { updater := fun _ => Except.ok 7, expiration := 10, dict := [] }

theorem cache_ttl_behavior_witness :
    lookupEntry (cacheEmpty.clean 0).dict 1 = none ∧
    cacheEmpty.updater 1 = Except.ok 7 ∧
    (((cacheEmpty.get 0 0 1).1 = Except.ok 7 ∧ (cacheEmpty.get 0 0 1).2.2 = true ∧
        (cacheEmpty.get 0 0 1).2.1.dict = (cacheEmpty.clean 0).dict ++ [(1, 7, 0)]) ∧
      (∀ t2 t2b : Int, t2 - 0 < cacheEmpty.expiration →
        (((cacheEmpty.get 0 0 1).2.1).get t2 t2b 1).1 = Except.ok 7 ∧
        (((cacheEmpty.get 0 0 1).2.1).get t2 t2b 1).2.2 = false) ∧
      (∀ t3 t3b : Int, cacheEmpty.expiration < t3 - 0 →
        (((cacheEmpty.get 0 0 1).2.1).get t3 t3b 1).2.2 = true)) :=
  ⟨by decide, rfl, cache_ttl_behavior cacheEmpty 1 7 0 0 (by decide) rfl⟩

/-- C3 counterexample: a failing load does leave the dict changed, because the
sweep at the start of the same get call removed an expired entry of another
key; so the cache contents are not in general unchanged on loader failure. -/
def cacheFail : Cache Nat Nat String :=
  { updater := fun _ => Except.error "boom", expiration := 10, dict := [(1, 5, 0)] }

theorem cache_sweep_on_failure_changes_dict :
    (cacheFail.get 100 100 2).1 = Except.error "boom" ∧
    (cacheFail.get 100 100 2).2.1.dict ≠ cacheFail.dict :=
  ⟨rfl, by decide⟩

/-- C3 amended: when the loader raises on a miss of k, the error propagates
uncaught, the dict after the call is exactly the swept dict (nothing is
stored for k, and the only change is the expiration sweep every get
performs), and the very next get of k invokes the loader again. -/
theorem cache_load_failure_not_memoized {K V E : Type} [DecidableEq K]
    (c : Cache K V E) (k : K) (err : E) (now1 now2 : Int)
    (hup : c.updater k = Except.error err)
    (hmiss : lookupEntry (c.clean now1).dict k = none) :
    (c.get now1 now2 k).1 = Except.error err ∧
    (c.get now1 now2 k).2.1.dict = (c.clean now1).dict ∧
    lookupEntry (c.get now1 now2 k).2.1.dict k = none ∧
    (∀ t1 t2 : Int, (((c.get now1 now2 k).2.1).get t1 t2 k).2.2 = true) := by
  have hdict : (c.get now1 now2 k).2.1.dict = (c.clean now1).dict := by
    simp [Cache.get, hmiss, hup]
  have key : ∀ c2 : Cache K V E, c2.dict = (c.clean now1).dict →
      ∀ t1 t2 : Int, (c2.get t1 t2 k).2.2 = true := by
    intro c2 hd t1 t2
    have hlook : lookupEntry (c2.clean t1).dict k = none := by
      rw [Cache.clean_dict, hd]
      exact lookupEntry_filter_none _ _ _ hmiss
    rcases hu : c2.updater k with e2 | v2
    · simp [Cache.get, hlook, hu]
    · simp [Cache.get, hlook, hu]
  exact ⟨by simp [Cache.get, hmiss, hup], hdict, hdict ▸ hmiss, key _ hdict⟩

theorem cache_load_failure_not_memoized_witness :
    cacheFail.updater 2 = Except.error "boom" ∧
    lookupEntry (cacheFail.clean 100).dict 2 = none ∧
    ((cacheFail.get 100 100 2).1 = Except.error "boom" ∧
      (cacheFail.get 100 100 2).2.1.dict = (cacheFail.clean 100).dict ∧
      lookupEntry (cacheFail.get 100 100 2).2.1.dict 2 = none ∧
      (∀ t1 t2 : Int, (((cacheFail.get 100 100 2).2.1).get t1 t2 2).2.2 = true)) :=
  ⟨rfl, by decide, cache_load_failure_not_memoized cacheFail 2 "boom" 100 100 rfl (by decide)⟩

/-! ## rss_view loop lemmas -/

/-- A cache in agreement with a date function: its loader totally returns the
function, and every stored value is consistent with it. -/
def Agrees (c : Cache String Int E) (dateFn : String → Int) : Prop :=
  c.updater = (fun i => Except.ok (dateFn i)) ∧ ∀ e ∈ c.dict, e.2.1 = dateFn e.1

theorem get_agrees {E : Type} (c : Cache String Int E) (dateFn : String → Int)
    (h : Agrees c dateFn) (n1 n2 : Int) (k : String) :
    (c.get n1 n2 k).1 = Except.ok (dateFn k) ∧ Agrees (c.get n1 n2 k).2.1 dateFn := by
  obtain ⟨hu, hd⟩ := h
  have hclean : ∀ e ∈ (c.clean n1).dict, e.2.1 = dateFn e.1 := by
    intro e he
    exact hd e (List.mem_of_mem_filter he)
  rcases hl : lookupEntry (c.clean n1).dict k with _ | vt
  · refine ⟨by simp [Cache.get, hl, hu], by simp [Cache.get, hl, hu], ?_⟩
    have hdict : (c.get n1 n2 k).2.1.dict = (c.clean n1).dict ++ [(k, dateFn k, n2)] := by
      simp [Cache.get, hl, hu]
    rw [hdict]
    intro e he
    rcases List.mem_append.mp he with h1 | h2
    · exact hclean e h1
    · obtain rfl : e = (k, dateFn k, n2) := by simpa using h2
      rfl
  · have hv : vt.1 = dateFn k := by
      simpa using hclean (k, vt) (lookupEntry_mem _ _ _ hl)
    refine ⟨by simp [Cache.get, hl, hv], by simp [Cache.get, hl, hu], ?_⟩
    have hdict : (c.get n1 n2 k).2.1.dict = (c.clean n1).dict := by
      simp [Cache.get, hl]
    rw [hdict]
    exact hclean

/-- The pure step the dedup loop performs on the (item_ids, rss_items)
accumulator for one search result, once dates are resolved by `dateFn`. -/
def dedupStep (dateFn : String → Int) :
    List String × List RSSItem → Item → List String × List RSSItem :=
  fun acc it =>
    if it.id ∈ acc.1 then acc
    else (acc.1 ++ [it.id], acc.2 ++ [mkRSSItem (dateFn it.id) it])

theorem itemLoop_agrees {E : Type} (now : Int) (dateFn : String → Int) :
    ∀ (l : List Item) (st : LoopState E), Agrees st.cache dateFn →
    ∃ st', itemLoop now l st = Except.ok st' ∧ Agrees st'.cache dateFn ∧
      st'.calls = st.calls ∧
      (st'.item_ids, st'.rss_items) =
        l.foldl (dedupStep dateFn) (st.item_ids, st.rss_items) := by
  intro l
  induction l with
  | nil => exact fun st h => ⟨st, rfl, h, rfl, rfl⟩
  | cons it rest ih =>
      intro st h
      by_cases hid : it.id ∈ st.item_ids
      · have hstep : processItem now st it = Except.ok st := by
          simp [processItem, hid]
        obtain ⟨st', h1, h2, h3, h4⟩ := ih st h
        refine ⟨st', by simp [itemLoop, hstep, h1], h2, h3, ?_⟩
        simpa [List.foldl_cons, dedupStep, hid] using h4
      · obtain ⟨hok, hag⟩ := get_agrees st.cache dateFn h now now it.id
        rcases hres : st.cache.get now now it.id with ⟨r1, c2, b⟩
        rw [hres] at hok hag
        simp only at hok hag
        subst hok
        have hstep : processItem now st it = Except.ok
            { st with item_ids := st.item_ids ++ [it.id],
                      rss_items := st.rss_items ++ [mkRSSItem (dateFn it.id) it],
                      cache := c2 } := by
          simp [processItem, hid, hres]
        obtain ⟨st', h1, h2, h3, h4⟩ := ih
          { st with item_ids := st.item_ids ++ [it.id],
                    rss_items := st.rss_items ++ [mkRSSItem (dateFn it.id) it],
                    cache := c2 } (by exact hag)
        refine ⟨st', by simp [itemLoop, hstep, h1], h2, by simpa using h3, ?_⟩
        simpa [List.foldl_cons, dedupStep, hid] using h4

theorem keywordLoop_agrees {E : Type} (now : Int) (dateFn : String → Int)
    (searchFn : SearchCall → List Item) (keywords : List String)
    (location : Location) (location_radius min_price max_price : Int) :
    ∀ (kws : List String) (st : LoopState E), Agrees st.cache dateFn →
    ∃ st', keywordLoop now searchFn keywords location location_radius min_price
        max_price kws st = Except.ok st' ∧
      Agrees st'.cache dateFn ∧
      st'.calls = st.calls ++ kws.map
        (fun _ => search_call keywords location location_radius min_price max_price) ∧
      (st'.item_ids, st'.rss_items) =
        ((kws.map (fun _ => searchFn
          (search_call keywords location location_radius min_price max_price))).flatten).foldl
          (dedupStep dateFn) (st.item_ids, st.rss_items) := by
  intro kws
  induction kws with
  | nil => exact fun st h => ⟨st, rfl, h, by simp, rfl⟩
  | cons kw rest ih =>
      intro st h
      obtain ⟨st2, h1, h2, h3, h4⟩ := itemLoop_agrees now dateFn
        (searchFn (search_call keywords location location_radius min_price max_price))
        { st with calls := st.calls ++
            [search_call keywords location location_radius min_price max_price] }
        (by exact h)
      obtain ⟨st', g1, g2, g3, g4⟩ := ih st2 h2
      refine ⟨st', by simp [keywordLoop, h1, g1], g2, ?_, ?_⟩
      · rw [g3, h3]
        simp
      · rw [g4, h4]
        simp [List.foldl_append]

/-- The combined stream of search results one rss_view resolution processes:
each keyword iteration re-issues the identical combined-keyword search. -/
def resultStream (searchFn : SearchCall → List Item) (keywords : List String)
    (location : Location) (location_radius min_price max_price : Int) : List Item :=
  (keywords.map (fun _ => searchFn
    (search_call keywords location location_radius min_price max_price))).flatten

theorem rss_view_agrees {E : Type} (now nowBuild : Int)
    (locationFn : String → Location) (searchFn : SearchCall → List Item)
    (cache0 : Cache String Int E) (dateFn : String → Int)
    (keywords : List String) (location_name : String)
    (location_radius min_price max_price : Int)
    (h : Agrees cache0 dateFn) :
    ∃ feed c' calls,
      rss_view now nowBuild locationFn searchFn cache0 keywords location_name
        location_radius min_price max_price = Except.ok (feed, c', calls) ∧
      Agrees c' dateFn ∧
      calls = keywords.map (fun _ => search_call keywords (locationFn location_name)
        location_radius min_price max_price) ∧
      feed.items = ((resultStream searchFn keywords (locationFn location_name)
        location_radius min_price max_price).foldl (dedupStep dateFn) ([], [])).2 ∧
      feed.lastBuildDate = firstPubDate feed.items nowBuild := by
  obtain ⟨st', h1, h2, h3, h4⟩ := keywordLoop_agrees now dateFn searchFn keywords
    (locationFn location_name) location_radius min_price max_price keywords
    { calls := [], item_ids := [], rss_items := [], cache := cache0 } (by exact h)
  refine ⟨{ lastBuildDate := firstPubDate st'.rss_items nowBuild,
            items := st'.rss_items }, st'.cache, st'.calls,
    by simp [rss_view, h1], h2, by simpa using h3, ?_, rfl⟩
  simp only [resultStream]
  have := congrArg Prod.snd h4
  simpa using this

/-! ## Keep-first deduplication, the spec-side description of the loop -/

/-- Keep the first occurrence of every item id not already in `seen`,
dropping all later occurrences. -/
def dedupFirst (seen : List String) : List Item → List Item
  | [] => []
  | it :: rest =>
      if it.id ∈ seen then dedupFirst seen rest
      else it :: dedupFirst (seen ++ [it.id]) rest

/-- The first item of the list carrying the given id, if any. -/
def firstWithId : List Item → String → Option Item
  | [], _ => none
  | it :: rest, i => if it.id = i then some it else firstWithId rest i

theorem foldl_dedupStep_eq (dateFn : String → Int) :
    ∀ (l : List Item) (seen : List String) (items : List RSSItem),
    l.foldl (dedupStep dateFn) (seen, items) =
      (seen ++ (dedupFirst seen l).map Item.id,
       items ++ (dedupFirst seen l).map (fun it => mkRSSItem (dateFn it.id) it)) := by
  intro l
  induction l with
  | nil => intro seen items; simp [dedupFirst]
  | cons it rest ih =>
      intro seen items
      by_cases h : it.id ∈ seen
      · simp [List.foldl_cons, dedupStep, dedupFirst, h, ih]
      · simp only [List.foldl_cons, dedupStep, dedupFirst, if_neg h, ih]
        simp

theorem mem_dedupFirst_id :
    ∀ (l : List Item) (seen : List String) (i : String),
    (i ∈ (dedupFirst seen l).map Item.id ↔ i ∉ seen ∧ i ∈ l.map Item.id) := by
  intro l
  induction l with
  | nil => intro seen i; simp [dedupFirst]
  | cons it rest ih =>
      intro seen i
      by_cases h : it.id ∈ seen
      · rw [dedupFirst, if_pos h]
        rw [ih]
        simp only [List.map_cons, List.mem_cons]
        constructor
        · rintro ⟨hn, hm⟩
          exact ⟨hn, Or.inr hm⟩
        · rintro ⟨hn, hm | hm⟩
          · exact absurd (hm ▸ h) hn
          · exact ⟨hn, hm⟩
      · rw [dedupFirst, if_neg h]
        simp only [List.map_cons, List.mem_cons, ih, List.mem_append,
          List.mem_singleton]
        constructor
        · rintro (rfl | ⟨hn, hm⟩)
          · exact ⟨h, Or.inl rfl⟩
          · exact ⟨fun hs => hn (Or.inl hs), Or.inr hm⟩
        · rintro ⟨hn, rfl | hm⟩
          · exact Or.inl rfl
          · by_cases he : i = it.id
            · exact Or.inl he
            · refine Or.inr ⟨fun hs => ?_, hm⟩
              rcases hs with h1 | h2 | h3
              · exact hn h1
              · exact he h2
              · simp at h3

theorem nodup_dedupFirst_id :
    ∀ (l : List Item) (seen : List String),
    ((dedupFirst seen l).map Item.id).Nodup := by
  intro l
  induction l with
  | nil => intro seen; simp [dedupFirst]
  | cons it rest ih =>
      intro seen
      by_cases h : it.id ∈ seen
      · rw [dedupFirst, if_pos h]
        exact ih seen
      · rw [dedupFirst, if_neg h]
        simp only [List.map_cons, List.nodup_cons]
        refine ⟨fun hmem => ?_, ih (seen ++ [it.id])⟩
        have := (mem_dedupFirst_id rest (seen ++ [it.id]) it.id).mp hmem
        exact this.1 (List.mem_append.mpr (Or.inr (List.mem_singleton.mpr rfl)))

theorem dedupFirst_firstWithId :
    ∀ (l : List Item) (seen : List String) (it : Item),
    it ∈ dedupFirst seen l → it.id ∉ seen ∧ firstWithId l it.id = some it := by
  intro l
  induction l with
  | nil => intro seen it h; simp [dedupFirst] at h
  | cons hd rest ih =>
      intro seen it hmem
      by_cases h : hd.id ∈ seen
      · rw [dedupFirst, if_pos h] at hmem
        obtain ⟨hn, hf⟩ := ih seen it hmem
        have hne : hd.id ≠ it.id := fun he => hn (he ▸ h)
        exact ⟨hn, by rw [firstWithId, if_neg hne, hf]⟩
      · rw [dedupFirst, if_neg h] at hmem
        rcases List.mem_cons.mp hmem with rfl | hmem2
        · exact ⟨h, by rw [firstWithId, if_pos rfl]⟩
        · obtain ⟨hn, hf⟩ := ih (seen ++ [hd.id]) it hmem2
          have hn1 : it.id ∉ seen := fun hs => hn (List.mem_append.mpr (Or.inl hs))
          have hne : hd.id ≠ it.id := fun he =>
            hn (List.mem_append.mpr (Or.inr (List.mem_singleton.mpr he.symm)))
          exact ⟨hn1, by rw [firstWithId, if_neg hne, hf]⟩

/-! ## Claim theorems about rss_view -/

/-- C6: one feed resolution emits exactly one RSS item per distinct item id
of the processed result stream: the output is the keep-first deduplication
of the stream in encounter order, its ids are pairwise distinct, an id
appears in the output iff it appears somewhere in the stream, and every
surviving item is the first occurrence of its id. -/
theorem rss_view_dedup {E : Type} (now nowBuild : Int)
    (locationFn : String → Location) (searchFn : SearchCall → List Item)
    (cache0 : Cache String Int E) (dateFn : String → Int)
    (keywords : List String) (location_name : String)
    (location_radius min_price max_price : Int)
    (h : Agrees cache0 dateFn) :
    ∃ feed c' calls,
      rss_view now nowBuild locationFn searchFn cache0 keywords location_name
        location_radius min_price max_price = Except.ok (feed, c', calls) ∧
      feed.items = (dedupFirst [] (resultStream searchFn keywords
          (locationFn location_name) location_radius min_price max_price)).map
          (fun it => mkRSSItem (dateFn it.id) it) ∧
      ((dedupFirst [] (resultStream searchFn keywords (locationFn location_name)
          location_radius min_price max_price)).map Item.id).Nodup ∧
      (∀ i : String, i ∈ (dedupFirst [] (resultStream searchFn keywords
          (locationFn location_name) location_radius min_price max_price)).map Item.id ↔
        i ∈ (resultStream searchFn keywords (locationFn location_name)
          location_radius min_price max_price).map Item.id) ∧
      (∀ it ∈ dedupFirst [] (resultStream searchFn keywords (locationFn location_name)
          location_radius min_price max_price),
        firstWithId (resultStream searchFn keywords (locationFn location_name)
          location_radius min_price max_price) it.id = some it) := by
  obtain ⟨feed, c', calls, h1, h2, h3, h4, h5⟩ := rss_view_agrees now nowBuild
    locationFn searchFn cache0 dateFn keywords location_name location_radius
    min_price max_price h
  refine ⟨feed, c', calls, h1, ?_, nodup_dedupFirst_id _ _, ?_, ?_⟩
  · rw [h4, foldl_dedupStep_eq]
    simp
  · intro i
    rw [mem_dedupFirst_id]
    simp
  · intro it hmem
    exact (dedupFirst_firstWithId _ [] it hmem).2

/-- C7: a resolution issues one search call per element of the keyword list,
and every one of those calls carries the whole keyword list and the same
remaining parameters: the upstream searches are identical repetitions. -/
theorem rss_view_repeats_full_search {E : Type} (now nowBuild : Int)
    (locationFn : String → Location) (searchFn : SearchCall → List Item)
    (cache0 : Cache String Int E) (dateFn : String → Int)
    (keywords : List String) (location_name : String)
    (location_radius min_price max_price : Int)
    (h : Agrees cache0 dateFn) :
    ∃ feed c' calls,
      rss_view now nowBuild locationFn searchFn cache0 keywords location_name
        location_radius min_price max_price = Except.ok (feed, c', calls) ∧
      calls.length = keywords.length ∧
      ∀ cl ∈ calls, cl = search_call keywords (locationFn location_name)
        location_radius min_price max_price := by
  obtain ⟨feed, c', calls, h1, _, h3, _, _⟩ := rss_view_agrees now nowBuild
    locationFn searchFn cache0 dateFn keywords location_name location_radius
    min_price max_price h
  refine ⟨feed, c', calls, h1, ?_, ?_⟩
  · rw [h3]
    simp
  · intro cl hcl
    rw [h3] at hcl
    obtain ⟨kw, _, hkw⟩ := List.mem_map.mp hcl
    exact hkw.symm

/-- C10: a resolution never fails for this reason: with zero surviving items
it returns a feed with an empty item sequence and build date equal to the
datetime.now() reading, and with at least one item the build date is the
publish date of the first item of the ordered output. -/
theorem rss_view_build_date {E : Type} (now nowBuild : Int)
    (locationFn : String → Location) (searchFn : SearchCall → List Item)
    (cache0 : Cache String Int E) (dateFn : String → Int)
    (keywords : List String) (location_name : String)
    (location_radius min_price max_price : Int)
    (h : Agrees cache0 dateFn) :
    ∃ feed c' calls,
      rss_view now nowBuild locationFn searchFn cache0 keywords location_name
        location_radius min_price max_price = Except.ok (feed, c', calls) ∧
      (feed.items = [] → feed.lastBuildDate = nowBuild) ∧
      (∀ (i : RSSItem) (rest : List RSSItem),
        feed.items = i :: rest → feed.lastBuildDate = i.pubDate) ∧
      ((∀ sc : SearchCall, searchFn sc = []) →
        feed.items = [] ∧ feed.lastBuildDate = nowBuild) := by
  obtain ⟨feed, c', calls, h1, _, _, h4, h5⟩ := rss_view_agrees now nowBuild
    locationFn searchFn cache0 dateFn keywords location_name location_radius
    min_price max_price h
  have hempty2 : (∀ sc : SearchCall, searchFn sc = []) → feed.items = [] := by
    intro he
    rw [h4]
    simp [resultStream, he]
  refine ⟨feed, c', calls, h1, ?_, ?_, fun he => ⟨hempty2 he, ?_⟩⟩
  · intro hnil
    rw [h5, hnil]
    rfl
  · intro i rest hcons
    rw [h5, hcons]
    rfl
  · rw [h5, hempty2 he]
    rfl

/-! ## Concrete data witnessing the rss_view theorems -/

def itemA : Item :=
  { id := "a", title := "bike", price := "5", currency := "EUR",
    description := "old bike", images := ["http://img/1"], web_slug := "bike-1",
    micro_name := "ann" }

def itemB : Item :=
  { id := "a", title := "bike again", price := "6", currency := "EUR",
    description := "same bike", images := [], web_slug := "bike-2",
    micro_name := "bob" }

def cacheAg : Cache String Int String :=
  { updater := fun _ => Except.ok 0, expiration := 10, dict := [] }

def dFn : String → Int := fun _ => 0

def locFn : String → Location := fun _ => { latitude := "41.0", longitude := "2.0" }

def searchAB : SearchCall → List Item := fun _ => [itemA, itemB]

def searchNone : SearchCall → List Item := fun _ => []

theorem rss_view_dedup_witness :
    Agrees cacheAg dFn ∧
    (∃ feed c' calls,
      rss_view 0 0 locFn searchAB cacheAg ["k"] "x" 1 0 100 =
        Except.ok (feed, c', calls) ∧
      feed.items = (dedupFirst [] (resultStream searchAB ["k"]
          (locFn "x") 1 0 100)).map (fun it => mkRSSItem (dFn it.id) it) ∧
      ((dedupFirst [] (resultStream searchAB ["k"] (locFn "x") 1 0 100)).map
          Item.id).Nodup ∧
      (∀ i : String, i ∈ (dedupFirst [] (resultStream searchAB ["k"]
          (locFn "x") 1 0 100)).map Item.id ↔
        i ∈ (resultStream searchAB ["k"] (locFn "x") 1 0 100).map Item.id) ∧
      (∀ it ∈ dedupFirst [] (resultStream searchAB ["k"] (locFn "x") 1 0 100),
        firstWithId (resultStream searchAB ["k"] (locFn "x") 1 0 100) it.id =
          some it)) :=
  ⟨⟨rfl, by simp [cacheAg]⟩,
    rss_view_dedup 0 0 locFn searchAB cacheAg dFn ["k"] "x" 1 0 100
      ⟨rfl, by simp [cacheAg]⟩⟩

theorem rss_view_repeats_full_search_witness :
    Agrees cacheAg dFn ∧
    (∃ feed c' calls,
      rss_view 0 0 locFn searchAB cacheAg ["k1", "k2"] "x" 1 0 100 =
        Except.ok (feed, c', calls) ∧
      calls.length = (["k1", "k2"] : List String).length ∧
      ∀ cl ∈ calls, cl = search_call ["k1", "k2"] (locFn "x") 1 0 100) :=
  ⟨⟨rfl, by simp [cacheAg]⟩,
    rss_view_repeats_full_search 0 0 locFn searchAB cacheAg dFn ["k1", "k2"]
      "x" 1 0 100 ⟨rfl, by simp [cacheAg]⟩⟩

theorem rss_view_build_date_witness :
    Agrees cacheAg dFn ∧
    (∃ feed c' calls,
      rss_view 0 7 locFn searchNone cacheAg ["k"] "x" 1 0 100 =
        Except.ok (feed, c', calls) ∧
      (feed.items = [] → feed.lastBuildDate = 7) ∧
      (∀ (i : RSSItem) (rest : List RSSItem),
        feed.items = i :: rest → feed.lastBuildDate = i.pubDate) ∧
      ((∀ sc : SearchCall, searchNone sc = []) →
        feed.items = [] ∧ feed.lastBuildDate = 7)) :=
  ⟨⟨rfl, by simp [cacheAg]⟩,
    rss_view_build_date 0 7 locFn searchNone cacheAg dFn ["k"] "x" 1 0 100
      ⟨rfl, by simp [cacheAg]⟩⟩

/-! ## Signature claims -/

/-- Substring occurrence test matching the left-to-right scan of replace. -/
def hasOccur (pat : List Char) : List Char → Bool
  | [] => false
  | c :: cs => startsWithL pat (c :: cs) || hasOccur pat cs

theorem startsWithL_self_append : ∀ l r : List Char, startsWithL l (l ++ r) = true := by
  intro l
  induction l with
  | nil => intro r; rfl
  | cons p ps ih => intro r; simp [startsWithL, ih]

theorem replaceAllAux_no_occur :
    ∀ (pat s : List Char) (fuel : Nat), hasOccur pat s = false →
      s.length ≤ fuel → replaceAllAux fuel pat s = s := by
  intro pat s
  induction s with
  | nil =>
      intro fuel _ _
      cases fuel <;> rfl
  | cons c cs ih =>
      intro fuel hno hfuel
      cases fuel with
      | zero => simp at hfuel
      | succ n =>
          have hor := hno
          rw [hasOccur, Bool.or_eq_false_iff] at hor
          rw [replaceAllAux, if_neg (by simp [hor.1])]
          rw [ih n hor.2 (by simpa using hfuel)]

theorem replaceAllAux_strip_head :
    ∀ (pat s : List Char) (fuel : Nat), pat ≠ [] → hasOccur pat s = false →
      pat.length + s.length ≤ fuel → replaceAllAux fuel pat (pat ++ s) = s := by
  intro pat s fuel hne hno hfuel
  rcases pat with _ | ⟨p, ps⟩
  · exact absurd rfl hne
  cases fuel with
  | zero => simp at hfuel
  | succ n =>
      show replaceAllAux (n + 1) (p :: ps) (p :: (ps ++ s)) = s
      have hs : startsWithL (p :: ps) (p :: (ps ++ s)) = true :=
        startsWithL_self_append (p :: ps) s
      rw [replaceAllAux, if_pos hs]
      have hdrop : (p :: (ps ++ s)).drop (p :: ps).length = s := by
        simp [List.drop_left]
      rw [hdrop]
      refine replaceAllAux_no_occur _ _ _ hno (by simp at hfuel; omega)

theorem stripApiHost_head_match (path : List Char)
    (h : hasOccur apiHost path = false) :
    stripApiHost (apiHost ++ path) = path := by
  unfold stripApiHost
  refine replaceAllAux_strip_head apiHost path (apiHost ++ path).length
    (by decide) h (by simp)

theorem stripApiHost_no_occur (s : List Char) (h : hasOccur apiHost s = false) :
    stripApiHost s = s :=
  replaceAllAux_no_occur apiHost s s.length h (le_refl _)

/-- C2 counterexample: the place-lookup URL is on the es.wallapop.com host,
whose scheme-and-host prefix get_signature does not strip, so the signed
message is not the claimed lowercase-host-stripped form. -/
theorem signed_message_keeps_es_host :
    signed_message (URL ++ "/maps/here/place").toList "get".toList
        "1565827270558".toList ≠
      "GET|/maps/here/place|1565827270558|".toList := by
  decide

/-- C2 amended: the signed message is UPPER(method) | path | timestamp |
where only the literal prefix string https with api.wallapop.com host is
stripped from the request URL (query string excluded); for any URL of that
host (whose remainder does not again contain the prefix) the claim holds as
written, while the es.wallapop.com place-lookup URL passes through whole,
scheme and host included. -/
theorem signed_message_strip_behavior (path method ts : List Char)
    (h : hasOccur apiHost path = false) :
    signed_message (apiHost ++ path) method ts =
      pyUpper method ++ "|".toList ++ path ++ "|".toList ++ ts ++ "|".toList ∧
    ∀ method2 ts2 : List Char,
      signed_message (URL ++ "/maps/here/place").toList method2 ts2 =
        pyUpper method2 ++ "|".toList ++ (URL ++ "/maps/here/place").toList ++
          "|".toList ++ ts2 ++ "|".toList := by
  constructor
  · unfold signed_message
    rw [stripApiHost_head_match path h]
  · intro method2 ts2
    unfold signed_message
    rw [stripApiHost_no_occur _ (by decide)]

theorem signed_message_strip_behavior_witness :
    hasOccur apiHost "/api/v3/suggesters/search".toList = false ∧
    (signed_message (apiHost ++ "/api/v3/suggesters/search".toList)
        "get".toList "1565827270558".toList =
      pyUpper "get".toList ++ "|".toList ++ "/api/v3/suggesters/search".toList ++
        "|".toList ++ "1565827270558".toList ++ "|".toList ∧
    ∀ method2 ts2 : List Char,
      signed_message (URL ++ "/maps/here/place").toList method2 ts2 =
        pyUpper method2 ++ "|".toList ++ (URL ++ "/maps/here/place").toList ++
          "|".toList ++ ts2 ++ "|".toList) :=
  ⟨by decide, signed_message_strip_behavior "/api/v3/suggesters/search".toList
    "get".toList "1565827270558".toList (by decide)⟩

set_option maxRecDepth 200000 in
/-- C1: get_signature reproduces the known-good base64 signature of the
golden vector of signature.py test, and is a pure function: identical
inputs give identical output. -/
theorem get_signature_golden_and_deterministic :
    get_signature "/api/v3/suggesters/search" "get" "1565827270558" =
      "6iU/x0HyEqX2dzMTdv1QsTtBX4Z8tZTuHJmhzMXnxuU=" ∧
    ∀ url method timestamp : String,
      get_signature url method timestamp = get_signature url method timestamp :=
  ⟨by decide, fun _ _ _ => rfl⟩

/-- C9 counterexample: the method is uppercased before signing, so inputs
differing only in the method's letter case produce the identical signature,
refuting the claimed sensitivity to any change of the method string. -/
theorem get_signature_case_collision :
    get_signature "/api/v3/suggesters/search" "get" "1565827270558" =
      get_signature "/api/v3/suggesters/search" "GET" "1565827270558" := by
  show String.mk (b64encode (hmac_sha256 (utf8Encode KEY.toList) (utf8Encode
      (signed_message "/api/v3/suggesters/search".toList "get".toList
        "1565827270558".toList)))) =
    String.mk (b64encode (hmac_sha256 (utf8Encode KEY.toList) (utf8Encode
      (signed_message "/api/v3/suggesters/search".toList "GET".toList
        "1565827270558".toList))))
  rw [show signed_message "/api/v3/suggesters/search".toList "get".toList
      "1565827270558".toList =
    signed_message "/api/v3/suggesters/search".toList "GET".toList
      "1565827270558".toList from by decide]

set_option maxRecDepth 200000 in
/-- C9 amended: on the golden test vector, changing the path, the timestamp,
or the method's uppercased form each changes the output signature; but the
method is uppercased before signing, so two methods differing only in
letter case, here get and GET, yield the identical signature. -/
theorem get_signature_sensitivity :
    get_signature "/api/v3/suggesters/search" "get" "1565827270558" ≠
      get_signature "/api/v3/general/search" "get" "1565827270558" ∧
    get_signature "/api/v3/suggesters/search" "get" "1565827270558" ≠
      get_signature "/api/v3/suggesters/search" "get" "1565827270559" ∧
    get_signature "/api/v3/suggesters/search" "get" "1565827270558" ≠
      get_signature "/api/v3/suggesters/search" "post" "1565827270558" ∧
    get_signature "/api/v3/suggesters/search" "get" "1565827270558" =
      get_signature "/api/v3/suggesters/search" "GET" "1565827270558" := by
  refine ⟨by decide, by decide, by decide, ?_⟩
  show String.mk (b64encode (hmac_sha256 (utf8Encode KEY.toList) (utf8Encode
      (signed_message "/api/v3/suggesters/search".toList "get".toList
        "1565827270558".toList)))) =
    String.mk (b64encode (hmac_sha256 (utf8Encode KEY.toList) (utf8Encode
      (signed_message "/api/v3/suggesters/search".toList "GET".toList
        "1565827270558".toList))))
  rw [show signed_message "/api/v3/suggesters/search".toList "get".toList
      "1565827270558".toList =
    signed_message "/api/v3/suggesters/search".toList "GET".toList
      "1565827270558".toList from by decide]

/-- C8: every outbound GET carries a Timestamp header equal to the
millisecond timestamp string generated at send time, and the very same
string is the timestamp input of the signature placed in the X-Signature
header. -/
theorem get_timestamp_header_consistent (now : Int) (url : String)
    (params : List (String × String)) :
    ∃ ts : String, ts = toString (now * 1000) ∧
      (get now url params).headers.lookup "Timestamp" = some ts ∧
      (get now url params).headers.lookup "X-Signature" =
        some (get_signature url "get" ts) :=
  ⟨get_timestamp now, rfl, rfl, rfl⟩

end WallapopRss
